import Mathlib

/-!
Shallow embedding of the bug-severity mining pipeline
(scripts/02_extract_commits.py, scripts/03_label_commits.py,
scripts/04_compute_temporal.py, src/bugsage/utils/git_ops.py)
together with theorems settling the specification claims.

Strings are modelled by Lean `String`; Python float confidences by `ℚ`;
timestamps by `Int` (days); Python dicts of filter statistics by
association lists.
-/

namespace BugSeverity

/-! ### String helpers (Python `in`, `.lower()`, `.strip()`, `.endswith()`) -/

/-- Lower-case all characters of a string (Python `str.lower()` on ASCII). -/
def lowerStr (s : String) : String := String.mk (s.data.map Char.toLower)

/-- Does `hay` start with `needle` (character lists)? -/
def listStartsWith : List Char → List Char → Bool
  | _, [] => true
  | [], _ :: _ => false
  | h :: hs, n :: ns => h == n && listStartsWith hs ns

/-- Does `needle` occur as a contiguous run inside `hay`? (Python `needle in hay`.) -/
def listContains (hay needle : List Char) : Bool :=
  match hay with
  | [] => listStartsWith [] needle
  | c :: rest => listStartsWith (c :: rest) needle || listContains rest needle

/-- Python `needle in hay` on strings. -/
def strContains (hay needle : String) : Bool := listContains hay.data needle.data

/-- Python `s.endswith(suffix)`. -/
def strEndsWith (hay suffix : String) : Bool :=
  listStartsWith hay.data.reverse suffix.data.reverse

/-- Python `not s.strip()`: the string has only whitespace characters. -/
def isBlank (s : String) : Bool := s.data.all Char.isWhitespace

/-- First element of `l` on which `f` returns `some`, in order (models a
Python `for` loop that returns on the first hit). -/
def firstMatch (f : α → Option β) : List α → Option β
  | [] => none
  | a :: as =>
    match f a with
    | some b => some b
    | none => firstMatch f as

/-! ### Severity fusion classifier (scripts/03_label_commits.py) -/

/-- Severity levels, in the evaluation order high, medium, low used by
the classifier (`severity_scores = {'high': 0, 'medium': 0, 'low': 0}`). -/
inductive Severity where
  | high
  | medium
  | low
deriving DecidableEq, Repr

/-- Position of a severity in the declaration/evaluation order
high, medium, low of `assign_severity`'s score dict. -/
def Severity.rank : Severity → Nat
  | .high => 0
  | .medium => 1
  | .low => 2

/-- The keyword dictionary of the repository configuration
(`config['labels']['keyword_patterns']`): a list of keywords per
severity (an absent key behaves as the empty list). -/
structure KeywordConfig where
  kw : Severity → List String

/-- One row of the commit-file table as consumed by `assign_severity`. -/
structure Row where
  message : String
  file_path : String
  insertions : Nat
  deletions : Nat

/-- `extract_keywords`: scan the lower-cased text against the keyword lists
in priority order high → medium → low; first matching severity wins. -/
def extract_keywords (text : String) (cfg : KeywordConfig) : Option Severity :=
  let text_lower := lowerStr text
  if (cfg.kw .high).any (fun k => strContains text_lower k) then some .high
  else if (cfg.kw .medium).any (fun k => strContains text_lower k) then some .medium
  else if (cfg.kw .low).any (fun k => strContains text_lower k) then some .low
  else none

/-- `classify_by_keywords`: severity from commit-message keywords with a
fixed confidence per severity (high 0.85, medium 0.70, low 0.60). -/
def classify_by_keywords (message : String) (cfg : KeywordConfig) :
    Option (Severity × ℚ × String) :=
  match extract_keywords message cfg with
  | some .high => some (.high, 85/100, "keyword")
  | some .medium => some (.medium, 70/100, "keyword")
  | some .low => some (.low, 60/100, "keyword")
  | none => none

/-- The high-severity path pattern list of `classify_by_file_path`. -/
def high_severity_patterns : List String :=
  ["auth", "security", "crypt", "password",
   "token", "session", "permission",
   "transport/tcp", "transport/zeromq",
   "database", "sql", "query"]

/-- The medium-severity path pattern list of `classify_by_file_path`. -/
def medium_severity_patterns : List String :=
  ["modules/", "states/", "grains/",
   "utils/", "transport/", "client/"]

/-- The low-severity path pattern list of `classify_by_file_path`. -/
def low_severity_patterns : List String :=
  ["test", "doc", "example", "template",
   "readme", "changelog", "license"]

/-- `classify_by_file_path`: ordered pattern families checked high, then
medium, then low over the lower-cased path, with a medium 0.30 default. -/
def classify_by_file_path (file_path : String) : Severity × ℚ × String :=
  let path_lower := lowerStr file_path
  match firstMatch
      (fun p => if strContains path_lower p then some p else none)
      high_severity_patterns with
  | some p => (.high, 60/100, "critical_file:" ++ p)
  | none =>
    match firstMatch
        (fun p => if strContains path_lower p then some p else none)
        medium_severity_patterns with
    | some p => (.medium, 50/100, "core_file:" ++ p)
    | none =>
      match firstMatch
          (fun p => if strContains path_lower p then some p else none)
          low_severity_patterns with
      | some p => (.low, 70/100, "non_critical:" ++ p)
      | none => (.medium, 30/100, "unknown_file")

/-- `classify_by_change_size`: optional signal from total lines changed. -/
def classify_by_change_size (insertions deletions : Nat) :
    Option (Severity × ℚ × String) :=
  let total_lines := insertions + deletions
  if total_lines > 500 then some (.high, 40/100, "very_large_change")
  else if total_lines > 200 then some (.medium, 35/100, "large_change")
  else if total_lines < 5 then some (.low, 50/100, "tiny_change")
  else none

/-- One contributing signal inside `assign_severity`. -/
structure Signal where
  sev : Severity
  conf : ℚ
  source : String
  reason : String
deriving DecidableEq, Repr

/-- The signal list built by `assign_severity`: optional message-keyword
signal, unconditional file-path signal, optional change-size signal. -/
def signalsOf (row : Row) (cfg : KeywordConfig) : List Signal :=
  let kwPart : List Signal :=
    match classify_by_keywords row.message cfg with
    | some (s, c, r) => [⟨s, c, "message_keyword", r⟩]
    | none => []
  let fileSig : Signal :=
    let (s, c, r) := classify_by_file_path row.file_path
    ⟨s, c, "file_path", r⟩
  let sizePart : List Signal :=
    match classify_by_change_size row.insertions row.deletions with
    | some (s, c, r) => [⟨s, c, "change_size", r⟩]
    | none => []
  kwPart ++ [fileSig] ++ sizePart

/-- The per-severity accumulated score: sum of the confidences of the
signals voting for that severity. -/
def scoreSum (signals : List Signal) (s : Severity) : ℚ :=
  ((signals.filter (fun sig => sig.sev == s)).map (fun sig => sig.conf)).sum

/-- The `severity_scores` dict of `assign_severity`: start every severity
at 0 and loop over the signals adding each signal's confidence to its
severity's entry. -/
def severity_scores (signals : List Signal) : Severity → ℚ :=
  signals.foldl
    (fun scores sig => fun s => if s == sig.sev then scores s + sig.conf else scores s)
    (fun _ => 0)

/-- Python `max(severity_scores, key=severity_scores.get)` over the dict
with insertion order high, medium, low: the first key attaining the
maximal value wins. -/
def fuseWinner (h m l : ℚ) : Severity :=
  if m ≤ h ∧ l ≤ h then .high
  else if l ≤ m then .medium
  else .low

/-- Result of `assign_severity`. -/
structure SeverityAssignment where
  severity_label : Severity
  severity_confidence : ℚ
  severity_reasons : List String
deriving DecidableEq, Repr

/-- `assign_severity`: build the signals, accumulate per-severity scores,
take the argmax (ties to the first-declared severity), divide the winning
score by the number of present signals. -/
def assign_severity (row : Row) (cfg : KeywordConfig) : SeverityAssignment :=
  let signals := signalsOf row cfg
  let scores := severity_scores signals
  let final_severity := fuseWinner (scores .high) (scores .medium) (scores .low)
  { severity_label := final_severity
  , severity_confidence := scores final_severity / signals.length
  , severity_reasons := signals.map (fun s => s.reason) }

/-! ### Temporal window aggregator (scripts/04_compute_temporal.py)

Timestamps are modelled in whole days (`Int`), matching the day-granular
arithmetic `(commit_time - first_commit).days` and
`commit_time - timedelta(days=window_days)` of the source. -/

/-- The fields of a labeled commit-file record that the temporal feature
functions read: `file_path`, `commit_time` and `severity_label`. -/
structure TRecord where
  file_path : String
  commit_time : Int
  severity_label : String
deriving DecidableEq, Repr

/-- Minimum of a nonempty list of integers (`file_commits['commit_time'].min()`);
defaults to 0 on the empty list, which `compute_file_age` never hits. -/
def listMin : List Int → Int
  | [] => 0
  | x :: xs => xs.foldl min x

/-- `compute_file_age`: days between the earliest strictly-earlier same-file
record and `commit_time`, or 0 if there is none. -/
def compute_file_age (df : List TRecord) (file_path : String) (commit_time : Int) :
    Int :=
  let file_commits :=
    (df.filter (fun r => r.file_path == file_path)).filter
      (fun r => r.commit_time < commit_time)
  if file_commits.length = 0 then 0
  else commit_time - listMin (file_commits.map (fun r => r.commit_time))

/-- `compute_churn`: number of same-file records with timestamp in
`[commit_time - window_days, commit_time)`. -/
def compute_churn (df : List TRecord) (file_path : String) (commit_time : Int)
    (window_days : Int := 60) : Nat :=
  let window_start := commit_time - window_days
  let file_commits := df.filter (fun r => r.file_path == file_path)
  let recent_commits := file_commits.filter
    (fun r => window_start ≤ r.commit_time ∧ r.commit_time < commit_time)
  recent_commits.length

/-- `compute_recent_severe`: number of same-file records labeled high with
timestamp in `[commit_time - window_days, commit_time)`. -/
def compute_recent_severe (df : List TRecord) (file_path : String)
    (commit_time : Int) (window_days : Int := 30) : Nat :=
  let window_start := commit_time - window_days
  let file_commits := df.filter (fun r => r.file_path == file_path)
  let recent_high := file_commits.filter
    (fun r => window_start ≤ r.commit_time ∧ r.commit_time < commit_time ∧
      r.severity_label == "high")
  recent_high.length

/-! ### Diff parser and git operations (src/bugsage/utils/git_ops.py)

The external `unidiff` library's `PatchSet` value is modelled as a list of
patched files, each a list of parsed hunks; the outcome of the
`PatchSet(diff_text)` call (which may raise) is an `Except` value supplied
alongside the text. -/

/-- Kind of one line inside a parsed hunk (`is_added` / `is_removed` /
context). -/
inductive LineKind where
  | added
  | removed
  | context
deriving DecidableEq, Repr

/-- One line of a parsed hunk, with its `str(line)` rendering prefix
determined by its kind. -/
structure PSLine where
  kind : LineKind
  source_line_no : Option Nat
  target_line_no : Option Nat
  value : String
deriving DecidableEq, Repr

/-- `str(line)` of the unidiff line object: type character then value. -/
def lineStr (l : PSLine) : String :=
  (match l.kind with
   | .added => "+"
   | .removed => "-"
   | .context => " ") ++ l.value

/-- One `@@ ... @@` hunk as exposed by the unidiff library. -/
structure PSHunk where
  source_start : Nat
  source_length : Nat
  target_start : Nat
  target_length : Nat
  lines : List PSLine
deriving DecidableEq, Repr

/-- One patched file of a parsed diff (`patched_file.path` and its hunks). -/
structure PatchedFile where
  path : String
  hunks : List PSHunk
deriving DecidableEq, Repr

/-- The `Hunk` dataclass. -/
structure Hunk where
  hunk_id : Nat
  file_path : String
  old_start : Nat
  old_lines : Nat
  new_start : Nat
  new_lines : Nat
  content : String
  added_lines : List (Option Nat × String)
  removed_lines : List (Option Nat × String)
deriving DecidableEq, Repr

/-- Build one `Hunk` from a parsed hunk, its file path and the running
hunk counter: content joins every line, added/removed lines keep their
target/source line numbers. -/
def mkHunk (ctr : Nat) (file_path : String) (h : PSHunk) : Hunk :=
  { hunk_id := ctr
  , file_path := file_path
  , old_start := h.source_start
  , old_lines := h.source_length
  , new_start := h.target_start
  , new_lines := h.target_length
  , content := String.join (h.lines.map lineStr)
  , added_lines := (h.lines.filter (fun l => l.kind == .added)).map
      (fun l => (l.target_line_no, l.value))
  , removed_lines := (h.lines.filter (fun l => l.kind == .removed)).map
      (fun l => (l.source_line_no, l.value)) }

/-- The double loop over files and hunks of `split_hunks`, threading the
global `hunk_counter`. -/
def buildHunks (ps : List PatchedFile) : List Hunk :=
  ((ps.map (fun f => f.hunks.map (fun h => (f.path, h)))).flatten).enum.map
    (fun p => mkHunk p.1 p.2.1 p.2.2)

/-- `split_hunks`: empty / whitespace-only diff text yields no hunks and no
warning; a parse failure yields no hunks and a printed warning; otherwise
the hunks of the parsed patch set. The second component collects the
warnings printed by the function; the function is total, so no exception
ever reaches the caller. -/
def split_hunks (diff_text : String)
    (parsed : Except String (List PatchedFile)) : List Hunk × List String :=
  if isBlank diff_text then ([], [])
  else
    match parsed with
    | .error e => ([], ["Warning: Failed to parse diff: " ++ e])
    | .ok ps => (buildHunks ps, [])

/-- The `Diff` dataclass. -/
structure Diff where
  commit_sha : String
  parent_sha : Option String
  hunks : List Hunk
  files_changed : List String
  insertions : Nat
  deletions : Nat
  raw_diff : String
deriving DecidableEq, Repr

/-- A commit as seen by `get_diff`: its sha and parent list. -/
structure GitCommit where
  sha : String
  parents : List String
deriving DecidableEq, Repr

/-- Read-only repository model backing `get_diff`: raw diff text between
two shas (`repo.git.diff`), the unidiff parse of a diff text, and the
`commit.stats` data of a commit. -/
structure RepoModel where
  diffText : String → String → String
  parseDiff : String → Except String (List PatchedFile)
  filesOf : String → List String
  insertionsOf : String → Nat
  deletionsOf : String → Nat

/-- `get_diff`: a commit with no parents yields the empty `Diff`;
otherwise the diff against the first parent, with hunks from
`split_hunks` and totals from the commit stats. -/
def get_diff (repo : RepoModel) (c : GitCommit) : Diff :=
  match c.parents with
  | [] =>
    { commit_sha := c.sha, parent_sha := none, hunks := [], files_changed := []
    , insertions := 0, deletions := 0, raw_diff := "" }
  | parent :: _ =>
    let raw_diff := repo.diffText parent c.sha
    let hunks := (split_hunks raw_diff (repo.parseDiff raw_diff)).1
    { commit_sha := c.sha, parent_sha := some parent, hunks := hunks
    , files_changed := repo.filesOf c.sha
    , insertions := repo.insertionsOf c.sha
    , deletions := repo.deletionsOf c.sha
    , raw_diff := raw_diff }

/-! ### Commit extraction (scripts/02_extract_commits.py) -/

/-- The `CommitInfo` dataclass. -/
structure CommitInfo where
  sha : String
  parent_sha : Option String
  message : String
  author : String
  author_email : String
  commit_time : Int
  files_changed : List String
  insertions : Nat
  deletions : Nat
deriving DecidableEq, Repr

/-- The extraction filters of `config['extraction']`, with the same
defaults the code passes to `.get`. -/
structure ExtractionFilters where
  exclude_merges : Bool := true
  min_files_changed : Nat := 1
  max_files_changed : Nat := 50
  min_lines_changed : Nat := 1
  max_lines_changed : Nat := 1000
  include_extensions : List String := []
  exclude_paths : List String := []

/-- `should_include_commit`: evaluate the inclusion filters in order and
report the first failing filter's name, or `(true, "included")`. -/
def should_include_commit (commit_info : CommitInfo) (_diff : Diff)
    (filters : ExtractionFilters) : Bool × String :=
  if filters.exclude_merges && strContains (lowerStr commit_info.message) "merge"
    then (false, "merge_commit")
  else if commit_info.files_changed.length < filters.min_files_changed
    then (false, "too_few_files")
  else if commit_info.files_changed.length > filters.max_files_changed
    then (false, "too_many_files")
  else if commit_info.insertions + commit_info.deletions < filters.min_lines_changed
    then (false, "too_few_lines")
  else if commit_info.insertions + commit_info.deletions > filters.max_lines_changed
    then (false, "too_many_lines")
  else if !filters.include_extensions.isEmpty &&
      !(commit_info.files_changed.any (fun f =>
          filters.include_extensions.any (fun ext => strEndsWith f ext)))
    then (false, "no_valid_extensions")
  else if !filters.exclude_paths.isEmpty &&
      (commit_info.files_changed.any (fun f =>
          filters.exclude_paths.any (fun ex => strContains f ex)))
    then (false, "excluded_path")
  else (true, "included")

/-- Maximal run of digit characters at the head of the list (the greedy
`\d+` group). -/
def takeDigits : List Char → List Char
  | [] => []
  | c :: cs => if c.isDigit then c :: takeDigits cs else []

/-- Search for the regex `#(\d+)`: first position holding a hash directly
followed by a digit; the group is the digit run after the hash. -/
def findHash : List Char → Option String
  | [] => none
  | c :: cs =>
    if c == '#' && (match cs with | d :: _ => d.isDigit | [] => false) then
      some (String.mk (takeDigits cs))
    else findHash cs

/-- Search for the regex `GH-(\d+)` case-insensitively. -/
def findGH : List Char → Option String
  | [] => none
  | c :: cs =>
    match cs with
    | h :: '-' :: d :: rest =>
      if c.toLower == 'g' && h.toLower == 'h' && d.isDigit then
        some (String.mk (takeDigits (d :: rest)))
      else findGH cs
    | _ => findGH cs

/-- Case-insensitive literal match of a pattern at the head of the input,
returning the remaining input on success. -/
def matchCI : List Char → List Char → Option (List Char)
  | [], rest => some rest
  | _ :: _, [] => none
  | p :: ps, c :: cs => if p.toLower == c.toLower then matchCI ps cs else none

/-- Match `#(\d+)` exactly at the head of the input. -/
def hashDigits : List Char → Option (List Char)
  | c :: d :: rest =>
    if c == '#' && d.isDigit then some (takeDigits (d :: rest)) else none
  | _ => none

/-- After one whitespace character: consume remaining whitespace (`\s+`
greedily) then match `#(\d+)`. -/
def skipSpacesHash : List Char → Option (List Char)
  | [] => none
  | c :: cs => if c.isWhitespace then skipSpacesHash cs else hashDigits (c :: cs)

/-- Match `\s+#(\d+)` at the head of the input. -/
def spaceThenHash : List Char → Option (List Char)
  | [] => none
  | c :: cs => if c.isWhitespace then skipSpacesHash cs else none

/-- The verb alternatives of the third issue-reference pattern, in the
order they appear in the regex alternation. -/
def fixVerbs : List String :=
  ["fix", "fixes", "fixed", "close", "closes", "closed",
   "resolve", "resolves", "resolved"]

/-- Search for the regex
`(?:fix|fixes|fixed|close|closes|closed|resolve|resolves|resolved)\s+#(\d+)`
case-insensitively: at each position try each verb alternative followed by
whitespace and `#(\d+)`. -/
def findVerbHash : List Char → Option String
  | [] => none
  | c :: cs =>
    match firstMatch (fun v => (matchCI v.data (c :: cs)).bind spaceThenHash)
        fixVerbs with
    | some ds => some (String.mk ds)
    | none => findVerbHash cs

/-- `extract_issue_id`: try the three patterns in order, returning the
first pattern's captured digits. -/
def extract_issue_id (commit_message : String) : Option String :=
  match findHash commit_message.data with
  | some d => some d
  | none =>
    match findGH commit_message.data with
    | some d => some d
    | none => findVerbHash commit_message.data

/-- Variant of `extract_issue_id` restricted to the first two patterns
(`#<digits>` and `GH-<digits>`); the refinement claim compares the
source function to this one. -/
def extract_issue_id_short (commit_message : String) : Option String :=
  match findHash commit_message.data with
  | some d => some d
  | none => findGH commit_message.data

/-- `is_bugfix_commit`: the lower-cased message contains one of a fixed
keyword set. -/
def is_bugfix_commit (commit_message : String) : Bool :=
  let message_lower := lowerStr commit_message
  ["fix", "bug", "issue", "problem", "error",
   "crash", "failure", "incorrect", "wrong"].any
    (fun k => strContains message_lower k)

/-- One output row of the extraction step (the `record` dict). -/
structure Record where
  project : String
  repo : String
  commit_sha : String
  parent_sha : Option String
  commit_time : Int
  author : String
  author_email : String
  message : String
  file_path : String
  files_changed : Nat
  insertions : Nat
  deletions : Nat
  hunks_count : Nat
  issue_id : Option String
  is_bugfix : Bool
  patch_text : String
deriving DecidableEq, Repr

/-- The record built for one changed file of an accepted commit. -/
def mkRecord (repo_name : String) (ci : CommitInfo) (diff : Diff)
    (file_path : String) : Record :=
  { project := repo_name, repo := repo_name
  , commit_sha := ci.sha, parent_sha := ci.parent_sha
  , commit_time := ci.commit_time
  , author := ci.author, author_email := ci.author_email
  , message := ci.message, file_path := file_path
  , files_changed := ci.files_changed.length
  , insertions := ci.insertions, deletions := ci.deletions
  , hunks_count := diff.hunks.length
  , issue_id := extract_issue_id ci.message
  , is_bugfix := is_bugfix_commit ci.message
  , patch_text := diff.raw_diff }

/-- `filter_stats[reason] = filter_stats.get(reason, 0) + 1` on an
association list. -/
def bumpStat (stats : List (String × Nat)) (reason : String) :
    List (String × Nat) :=
  if stats.any (fun p => p.1 == reason) then
    stats.map (fun p => if p.1 == reason then (p.1, p.2 + 1) else p)
  else stats ++ [(reason, 1)]

/-- The body of the per-commit loop of `extract_commits`. The item is the
outcome of `get_commit_info` plus `get_diff` for one sha: an exception
(`error`) is caught by the surrounding `try`, a warning is logged, and the
loop continues with the accumulated records and filter statistics
untouched. -/
def processCommit (cfg : ExtractionFilters) (repo_name : String)
    (st : List Record × List (String × Nat))
    (item : Except String (CommitInfo × Diff)) :
    List Record × List (String × Nat) :=
  match item with
  | .error _ => st
  | .ok (commit_info, diff) =>
    let (incl, reason) := should_include_commit commit_info diff cfg
    let stats := bumpStat st.2 reason
    if incl then
      (st.1 ++ commit_info.files_changed.map (mkRecord repo_name commit_info diff),
        stats)
    else (st.1, stats)

/-- The extraction loop of `extract_commits` over the listed commits:
fold `processCommit` over the per-sha outcomes, producing the record rows
and the filter-rejection statistics. -/
def extract_commits (cfg : ExtractionFilters) (repo_name : String)
    (items : List (Except String (CommitInfo × Diff))) :
    List Record × List (String × Nat) :=
  items.foldl (processCommit cfg repo_name) ([], [])

/-- A trivial repository model used to instantiate theorems on concrete
inputs. -/
def trivialRepo : RepoModel :=
  ⟨fun _ _ => "", fun _ => Except.ok [], fun _ => [], fun _ => 0, fun _ => 0⟩

/-- Spec-side helper: index the three per-severity scores by severity, in
the declaration order high, medium, low of the score dict. -/
def pick (h m l : ℚ) : Severity → ℚ
  | .high => h
  | .medium => m
  | .low => l

/-! ## Theorems settling the claims -/

example : extract_issue_id "fixes #123 and stuff" = some "123" := by decide
example : extract_issue_id "GH-77 regression" = some "77" := by decide
example : extract_issue_id "no reference here" = none := by decide

example :
    compute_churn [⟨"a.py", 0, "low"⟩, ⟨"a.py", 10, "low"⟩, ⟨"a.py", 70, "low"⟩]
      "a.py" 70 60 = 1 := by decide

example :
    compute_file_age [⟨"a.py", 0, "low"⟩, ⟨"a.py", 10, "low"⟩, ⟨"a.py", 70, "low"⟩]
      "a.py" 70 = 70 := by decide

/-- C4 (counterexample): processing a batch containing a single commit
whose extraction raises (a missing object, say) yields no records and an
EMPTY filter-rejection statistics table: the failure is not counted under
any reason, contradicting the claim that it is counted under a distinct
reason. -/
theorem extract_commits_failure_not_counted :
    extract_commits {} "salt" [Except.error "missing object"] = ([], []) := rfl

/-- C4 (amended): a per-commit processing failure during extraction is
caught, the commit is skipped producing no records and leaving the
filter-rejection statistics exactly as they were, and processing of the
remaining commits in the batch continues: deleting the failing item from
the batch changes nothing in the output. -/
theorem extract_commits_skips_failures (cfg : ExtractionFilters)
    (repo_name : String) (pre post : List (Except String (CommitInfo × Diff)))
    (e : String) :
    extract_commits cfg repo_name (pre ++ Except.error e :: post)
      = extract_commits cfg repo_name (pre ++ post) := by
  unfold extract_commits
  rw [List.foldl_append, List.foldl_append, List.foldl_cons]
  rfl

/-- C5: empty or whitespace-only diff text yields an empty hunk sequence
and no warning; diff text whose parse fails yields an empty hunk sequence
together with a warning. The parser is a total function, so no exception
reaches the caller. -/
theorem split_hunks_error_handling (diff_text : String)
    (parsed : Except String (List PatchedFile)) :
    (isBlank diff_text = true → split_hunks diff_text parsed = ([], [])) ∧
    (∀ e, parsed = Except.error e → isBlank diff_text = false →
      split_hunks diff_text parsed
        = ([], ["Warning: Failed to parse diff: " ++ e])) := by
  constructor
  · intro hb
    simp [split_hunks, hb]
  · intro e he hb
    simp [split_hunks, hb, he]

/-- C5 (witness): concrete instances of both branches. -/
theorem split_hunks_error_handling_witness :
    split_hunks "   " (Except.ok []) = ([], []) ∧
    split_hunks "@@ junk" (Except.error "Unexpected content")
      = ([], ["Warning: Failed to parse diff: " ++ "Unexpected content"]) := by
  constructor
  · exact (split_hunks_error_handling "   " (Except.ok [])).1 (by decide)
  · exact (split_hunks_error_handling "@@ junk"
      (Except.error "Unexpected content")).2 "Unexpected content" rfl (by decide)

/-- C7: a commit with zero parents yields the empty `Diff`: empty hunk
sequence, empty changed-file list, zero insertions and deletions, empty
raw diff text. -/
theorem get_diff_root_commit_empty (repo : RepoModel) (c : GitCommit)
    (h : c.parents = []) :
    get_diff repo c =
      { commit_sha := c.sha, parent_sha := none, hunks := [], files_changed := []
      , insertions := 0, deletions := 0, raw_diff := "" } := by
  unfold get_diff
  rw [h]

/-- C7 (witness): the empty diff of a concrete root commit. -/
theorem get_diff_root_commit_empty_witness :
    get_diff trivialRepo ⟨"deadbeef", []⟩
      = ⟨"deadbeef", none, [], [], 0, 0, ""⟩ :=
  get_diff_root_commit_empty trivialRepo ⟨"deadbeef", []⟩ rfl

/-- Characterization of `compute_churn` as a single count: the records
counted are exactly those with the same file path and a timestamp in the
half-open window `[t - W, t)`. -/
theorem compute_churn_countP (df : List TRecord) (fp : String) (t W : Int) :
    compute_churn df fp t W
      = df.countP
          (fun r => r.file_path = fp ∧ t - W ≤ r.commit_time ∧ r.commit_time < t) := by
  induction df with
  | nil => rfl
  | cons x xs ih =>
    simp only [compute_churn, List.countP_cons, List.filter_cons] at *
    by_cases h1 : x.file_path = fp
    · by_cases h2 : t - W ≤ x.commit_time ∧ x.commit_time < t
      · simp_all [List.filter_cons]
      · simp_all [List.filter_cons]
    · simp_all

/-- C2: `compute_churn` counts only same-file records with timestamp in
the half-open window `[t - W, t)` (strictly before `t`); consequently
inserting anywhere a record for the same file whose timestamp is at or
after `t` leaves the computed churn unchanged. -/
theorem churn_strict_window_causal (df₁ df₂ : List TRecord) (r : TRecord)
    (fp : String) (t W : Int) (h : t ≤ r.commit_time) :
    compute_churn (df₁ ++ r :: df₂) fp t W
      = (df₁ ++ r :: df₂).countP
          (fun x => x.file_path = fp ∧ t - W ≤ x.commit_time ∧ x.commit_time < t) ∧
    compute_churn (df₁ ++ r :: df₂) fp t W = compute_churn (df₁ ++ df₂) fp t W := by
  refine ⟨compute_churn_countP _ fp t W, ?_⟩
  rw [compute_churn_countP _ fp t W, compute_churn_countP _ fp t W,
    List.countP_append, List.countP_append, List.countP_cons]
  have hr : (decide (r.file_path = fp ∧ t - W ≤ r.commit_time ∧ r.commit_time < t))
      = false := by
    simp only [decide_eq_false_iff_not]
    rintro ⟨-, -, hlt⟩
    omega
  simp [hr]
  intro _ _
  exact h

/-- C2 (witness): a record at timestamp 10 never changes the churn
computed at timestamp 5 for the same file. -/
theorem churn_strict_window_causal_witness :
    compute_churn [⟨"a.py", 10, "low"⟩, ⟨"a.py", 0, "low"⟩] "a.py" 5 60
      = compute_churn [⟨"a.py", 0, "low"⟩] "a.py" 5 60 :=
  (churn_strict_window_causal [] [⟨"a.py", 0, "low"⟩] ⟨"a.py", 10, "low"⟩
    "a.py" 5 60 (by decide)).2

/-- C6: a file with no strictly earlier same-file record has file age 0;
and in the three-record scenario for `a.py` at t = 0, 10, 70 days with a
60-day window, the churn at t = 70 is 1 and the file age at t = 70 is 70. -/
theorem temporal_scenario_and_new_file (df : List TRecord) (fp : String)
    (t : Int) (h : ∀ x ∈ df, x.file_path = fp → t ≤ x.commit_time) :
    compute_file_age df fp t = 0 ∧
    compute_churn
      [⟨"a.py", 0, "low"⟩, ⟨"a.py", 10, "low"⟩, ⟨"a.py", 70, "low"⟩]
      "a.py" 70 60 = 1 ∧
    compute_file_age
      [⟨"a.py", 0, "low"⟩, ⟨"a.py", 10, "low"⟩, ⟨"a.py", 70, "low"⟩]
      "a.py" 70 = 70 := by
  refine ⟨?_, by decide, by decide⟩
  have hnil : (df.filter (fun r => r.file_path == fp)).filter
      (fun r => r.commit_time < t) = [] := by
    rw [List.filter_eq_nil_iff]
    intro a ha
    rw [List.mem_filter] at ha
    have hle := h a ha.1 (by simpa using ha.2)
    simp only [decide_eq_true_eq, not_lt]
    exact hle
  unfold compute_file_age
  rw [hnil]
  simp

/-- C6 (witness): a concrete record stream with no earlier record for the
queried file gives file age 0. -/
theorem temporal_new_file_witness :
    compute_file_age [⟨"b.py", 5, "low"⟩] "a.py" 0 = 0 :=
  (temporal_scenario_and_new_file [⟨"b.py", 5, "low"⟩] "a.py" 0 (by decide)).1

/-- C9: with the pipeline's windows W = 60 and V = 30 days, the recent
severe count never exceeds the churn: the records it counts (same file,
high severity, 30-day window) are a subset of those the churn counts
(same file, 60-day window). -/
theorem recent_severe_le_churn (df : List TRecord) (fp : String) (t : Int) :
    compute_recent_severe df fp t 30 ≤ compute_churn df fp t 60 := by
  induction df with
  | nil => exact Nat.le_refl 0
  | cons x xs ih =>
    simp only [compute_recent_severe, compute_churn, List.filter_cons] at *
    by_cases h1 : x.file_path = fp
    · by_cases h2 : t - 30 ≤ x.commit_time ∧ x.commit_time < t ∧
          x.severity_label = "high"
      · have h3 : t - 60 ≤ x.commit_time ∧ x.commit_time < t := by
          constructor
          · linarith [h2.1]
          · exact h2.2.1
        simp_all [List.filter_cons]
      · by_cases h3 : t - 60 ≤ x.commit_time ∧ x.commit_time < t
        · simp_all [List.filter_cons]
          omega
        · simp_all [List.filter_cons]
    · simp_all

/-- A hash character directly followed by a digit is always found by the
`#(\d+)` search, wherever it sits in the message. -/
theorem findHash_append (l : List Char) (d : Char) (r : List Char)
    (hd : d.isDigit = true) : (findHash (l ++ '#' :: d :: r)).isSome = true := by
  induction l with
  | nil => simp [findHash, hd]
  | cons c cs ih =>
    simp only [List.cons_append, findHash]
    split
    · simp
    · exact ih

/-- A successful `hashDigits` match starts with a hash then a digit. -/
theorem hashDigits_shape {cs ds : List Char} (h : hashDigits cs = some ds) :
    ∃ d r, cs = '#' :: d :: r ∧ d.isDigit = true := by
  match cs with
  | [] => simp [hashDigits] at h
  | [c] => simp [hashDigits] at h
  | c :: d :: rest =>
    simp only [hashDigits] at h
    by_cases hc : (c == '#' && d.isDigit) = true
    · have hc1 : c = '#' := by
        have := (Bool.and_eq_true _ _).mp hc
        simpa using this.1
      have hc2 : d.isDigit = true := ((Bool.and_eq_true _ _).mp hc).2
      exact ⟨d, rest, by rw [hc1], hc2⟩
    · rw [if_neg hc] at h
      exact absurd h (by simp)

/-- A successful whitespace-then-hash match contains a hash followed by a
digit. -/
theorem skipSpacesHash_shape {cs ds : List Char}
    (h : skipSpacesHash cs = some ds) :
    ∃ l d r, cs = l ++ '#' :: d :: r ∧ d.isDigit = true := by
  induction cs with
  | nil => simp [skipSpacesHash] at h
  | cons c cs' ih =>
    simp only [skipSpacesHash] at h
    by_cases hw : c.isWhitespace = true
    · rw [if_pos hw] at h
      obtain ⟨l, d, r, hcs, hd⟩ := ih h
      exact ⟨c :: l, d, r, by rw [hcs]; rfl, hd⟩
    · rw [if_neg hw] at h
      obtain ⟨d, r, hcs, hd⟩ := hashDigits_shape h
      exact ⟨[], d, r, hcs, hd⟩

/-- A successful `\s+#(\d+)` match contains a hash followed by a digit. -/
theorem spaceThenHash_shape {cs ds : List Char}
    (h : spaceThenHash cs = some ds) :
    ∃ l d r, cs = l ++ '#' :: d :: r ∧ d.isDigit = true := by
  cases cs with
  | nil => simp [spaceThenHash] at h
  | cons c cs' =>
    simp only [spaceThenHash] at h
    by_cases hw : c.isWhitespace = true
    · rw [if_pos hw] at h
      obtain ⟨l, d, r, hcs, hd⟩ := skipSpacesHash_shape h
      exact ⟨c :: l, d, r, by rw [hcs]; rfl, hd⟩
    · rw [if_neg hw] at h
      exact absurd h (by simp)

/-- What remains after a successful case-insensitive literal match is a
suffix of the input. -/
theorem matchCI_suffix {p cs rest : List Char} (h : matchCI p cs = some rest) :
    ∃ pre, cs = pre ++ rest := by
  induction p generalizing cs with
  | nil =>
    simp only [matchCI, Option.some.injEq] at h
    exact ⟨[], by simpa using h⟩
  | cons x xs ih =>
    cases cs with
    | nil => simp [matchCI] at h
    | cons c cs' =>
      simp only [matchCI] at h
      by_cases hx : (x.toLower == c.toLower) = true
      · rw [if_pos hx] at h
        obtain ⟨pre, hpre⟩ := ih h
        exact ⟨c :: pre, by rw [hpre]; rfl⟩
      · rw [if_neg hx] at h
        exact absurd h (by simp)

/-- A successful `firstMatch` comes from some list element. -/
theorem firstMatch_some {f : α → Option β} {l : List α} {b : β}
    (h : firstMatch f l = some b) : ∃ a ∈ l, f a = some b := by
  induction l with
  | nil => simp [firstMatch] at h
  | cons x xs ih =>
    simp only [firstMatch] at h
    cases hx : f x with
    | some b' =>
      rw [hx] at h
      simp only [Option.some.injEq] at h
      exact ⟨x, List.mem_cons_self x xs, by rw [hx, h]⟩
    | none =>
      rw [hx] at h
      obtain ⟨a, ha, hfa⟩ := ih h
      exact ⟨a, List.mem_cons_of_mem x ha, hfa⟩

/-- A message matched by the fix/close/resolve-verb pattern contains a
hash directly followed by a digit. -/
theorem findVerbHash_shape {cs : List Char} {ds : String}
    (h : findVerbHash cs = some ds) :
    ∃ l d r, cs = l ++ '#' :: d :: r ∧ d.isDigit = true := by
  induction cs with
  | nil => simp [findVerbHash] at h
  | cons c cs' ih =>
    simp only [findVerbHash] at h
    cases hfm : firstMatch
        (fun v => (matchCI v.data (c :: cs')).bind spaceThenHash) fixVerbs with
    | some ds' =>
      obtain ⟨v, hv, hres⟩ := firstMatch_some hfm
      cases hm : matchCI v.data (c :: cs') with
      | none => rw [hm] at hres; simp at hres
      | some rest =>
        rw [hm] at hres
        simp only [Option.some_bind] at hres
        obtain ⟨l, d, r, hrest, hd⟩ := spaceThenHash_shape hres
        obtain ⟨pre, hpre⟩ := matchCI_suffix hm
        exact ⟨pre ++ l, d, r, by rw [hpre, hrest, List.append_assoc], hd⟩
    | none =>
      rw [hfm] at h
      obtain ⟨l, d, r, hcs, hd⟩ := ih h
      exact ⟨c :: l, d, r, by rw [hcs]; rfl, hd⟩

/-- If the `#(\d+)` search fails, the verb pattern cannot match either. -/
theorem findVerbHash_none_of_findHash_none {cs : List Char}
    (h : findHash cs = none) : findVerbHash cs = none := by
  cases hv : findVerbHash cs with
  | none => rfl
  | some ds =>
    obtain ⟨l, d, r, hcs, hd⟩ := findVerbHash_shape hv
    have hs := findHash_append l d r hd
    rw [← hcs, h] at hs
    simp at hs

/-- C10: issue-reference extraction returns the same result as the
variant checking only the `#<digits>` and `GH-<digits>` patterns: the
third pattern (fix/close/resolve verb then `#<digits>`) can never be the
first to match, because any message it matches contains a hash followed
by a digit and is therefore already matched by the first pattern. -/
theorem extract_issue_id_eq_short (msg : String) :
    extract_issue_id msg = extract_issue_id_short msg := by
  unfold extract_issue_id extract_issue_id_short
  cases h1 : findHash msg.data with
  | some d => rfl
  | none =>
    cases h2 : findGH msg.data with
    | some d => rfl
    | none => simp [findVerbHash_none_of_findHash_none h1]

/-- The `severity_scores` loop, started from an arbitrary table, adds the
per-severity sum of confidences to each entry. -/
theorem foldl_scores (signals : List Signal) (f : Severity → ℚ) (s : Severity) :
    (signals.foldl
      (fun scores sig => fun s' =>
        if s' == sig.sev then scores s' + sig.conf else scores s')
      f) s = f s + scoreSum signals s := by
  induction signals generalizing f with
  | nil => simp [scoreSum]
  | cons sig sigs ih =>
    simp only [List.foldl_cons]
    rw [ih]
    simp only [scoreSum, List.filter_cons]
    by_cases hs : (sig.sev == s) = true
    · have hs' : (s == sig.sev) = true := by
        rw [beq_iff_eq] at hs ⊢
        exact hs.symm
      simp only [hs, hs', if_pos, List.map_cons, List.sum_cons]
      ring
    · have hs2 : (sig.sev == s) = false := by
        rw [Bool.not_eq_true] at hs
        exact hs
      have hs' : (s == sig.sev) = false := by
        rw [beq_eq_false_iff_ne] at hs2
        rw [beq_eq_false_iff_ne]
        exact fun hcontra => hs2 hcontra.symm
      simp [hs2, hs']

/-- The accumulated score dict agrees with the per-severity confidence
sum. -/
theorem severity_scores_eq (signals : List Signal) (s : Severity) :
    severity_scores signals s = scoreSum signals s := by
  unfold severity_scores
  rw [foldl_scores]
  simp

/-- Indexing the three scores of a signal list recovers `scoreSum`. -/
theorem pick_scoreSum (signals : List Signal) (s : Severity) :
    pick (scoreSum signals .high) (scoreSum signals .medium)
      (scoreSum signals .low) s = scoreSum signals s := by
  cases s <;> rfl

/-- The severity chosen by the Python `max` over the score dict attains
the maximal score. -/
theorem fuseWinner_ge (h m l : ℚ) (s : Severity) :
    pick h m l s ≤ pick h m l (fuseWinner h m l) := by
  by_cases h1 : m ≤ h ∧ l ≤ h
  · simp only [fuseWinner, if_pos h1]
    cases s
    · exact le_rfl
    · exact h1.1
    · exact h1.2
  · by_cases h2 : l ≤ m
    · simp only [fuseWinner, if_neg h1, if_pos h2]
      rcases not_and_or.mp h1 with h' | h' <;> push_neg at h'
      · cases s
        · exact le_of_lt h'
        · exact le_rfl
        · exact h2
      · cases s
        · exact le_of_lt (lt_of_lt_of_le h' h2)
        · exact le_rfl
        · exact h2
    · simp only [fuseWinner, if_neg h1, if_neg h2]
      push_neg at h2
      rcases not_and_or.mp h1 with h' | h' <;> push_neg at h'
      · cases s
        · exact le_of_lt (lt_trans h' h2)
        · exact le_of_lt h2
        · exact le_rfl
      · cases s
        · exact le_of_lt h'
        · exact le_of_lt h2
        · exact le_rfl

/-- The severity chosen by the Python `max` is the FIRST of the declared
keys high, medium, low to attain the maximal score: any severity with a
score at least the winner's comes no earlier in declaration order. -/
theorem fuseWinner_rank (h m l : ℚ) (s : Severity)
    (hle : pick h m l (fuseWinner h m l) ≤ pick h m l s) :
    (fuseWinner h m l).rank ≤ s.rank := by
  by_cases h1 : m ≤ h ∧ l ≤ h
  · simp [fuseWinner, if_pos h1, Severity.rank]
  · by_cases h2 : l ≤ m
    · simp only [fuseWinner, if_neg h1, if_pos h2] at hle ⊢
      cases s
      · exfalso
        simp only [pick] at hle
        rcases not_and_or.mp h1 with h' | h' <;> push_neg at h' <;> linarith
      · exact le_rfl
      · simp [Severity.rank]
    · simp only [fuseWinner, if_neg h1, if_neg h2] at hle ⊢
      push_neg at h2
      cases s
      · exfalso
        simp only [pick] at hle
        rcases not_and_or.mp h1 with h' | h' <;> push_neg at h' <;> linarith
      · exfalso
        simp only [pick] at hle
        linarith
      · exact le_rfl

/-- A record whose only present signal is the file-path signal (high,
confidence 0.60): the message matches no keyword and the change size
(3 + 4 lines) is in the silent middle band, so the fused label is high
with confidence 0.60 / 1 = 0.60. -/
theorem assign_severity_single_file_signal :
    assign_severity ⟨"update widget", "salt/auth/pam.py", 3, 4⟩ ⟨fun _ => []⟩ =
      ⟨.high, 60/100, ["critical_file:auth"]⟩ := by
  have h : signalsOf ⟨"update widget", "salt/auth/pam.py", 3, 4⟩ ⟨fun _ => []⟩ =
      [⟨.high, 60/100, "file_path", "critical_file:auth"⟩] := rfl
  simp only [assign_severity, h]
  norm_num [severity_scores, fuseWinner, beq_iff_eq,
    show (Severity.medium = Severity.high) = False from eq_false (by decide),
    show (Severity.low = Severity.high) = False from eq_false (by decide)]

/-- C1: severity fusion sums each present signal's confidence into a
per-severity score; the assigned label attains the maximal accumulated
score, ties going to the severity declared first in evaluation order
(high, then medium, then low); the final confidence is the winning score
divided by the number of present signals; and the record whose only
present signal is a file-path signal of high with confidence 0.60 gets
label high with confidence 0.60. -/
theorem assign_severity_weighted_vote (row : Row) (cfg : KeywordConfig) :
    (∀ s, scoreSum (signalsOf row cfg) s
        ≤ scoreSum (signalsOf row cfg) (assign_severity row cfg).severity_label) ∧
    (∀ s, scoreSum (signalsOf row cfg) (assign_severity row cfg).severity_label
          ≤ scoreSum (signalsOf row cfg) s →
        (assign_severity row cfg).severity_label.rank ≤ s.rank) ∧
    (assign_severity row cfg).severity_confidence
      = scoreSum (signalsOf row cfg) (assign_severity row cfg).severity_label
          / (signalsOf row cfg).length ∧
    assign_severity ⟨"update widget", "salt/auth/pam.py", 3, 4⟩ ⟨fun _ => []⟩ =
      ⟨.high, 60/100, ["critical_file:auth"]⟩ := by
  have hlabel : (assign_severity row cfg).severity_label
      = fuseWinner (scoreSum (signalsOf row cfg) .high)
          (scoreSum (signalsOf row cfg) .medium)
          (scoreSum (signalsOf row cfg) .low) := by
    have h0 : (assign_severity row cfg).severity_label
        = fuseWinner (severity_scores (signalsOf row cfg) .high)
            (severity_scores (signalsOf row cfg) .medium)
            (severity_scores (signalsOf row cfg) .low) := rfl
    rw [h0, severity_scores_eq, severity_scores_eq, severity_scores_eq]
  refine ⟨?_, ?_, ?_, assign_severity_single_file_signal⟩
  · intro s
    rw [hlabel, ← pick_scoreSum (signalsOf row cfg) s,
      ← pick_scoreSum (signalsOf row cfg)
        (fuseWinner (scoreSum (signalsOf row cfg) .high)
          (scoreSum (signalsOf row cfg) .medium)
          (scoreSum (signalsOf row cfg) .low))]
    exact fuseWinner_ge _ _ _ s
  · intro s hle
    rw [hlabel] at hle ⊢
    apply fuseWinner_rank
    rw [pick_scoreSum, pick_scoreSum]
    exact hle
  · have h0 : (assign_severity row cfg).severity_confidence
        = severity_scores (signalsOf row cfg)
            ((assign_severity row cfg).severity_label)
          / (signalsOf row cfg).length := rfl
    rw [h0, severity_scores_eq]

/-- C1 (witness): at the concrete file-path-only record the tie-break
conjunct applies with severity high, and the label indeed ranks first. -/
theorem assign_severity_weighted_vote_witness :
    (assign_severity ⟨"update widget", "salt/auth/pam.py", 3, 4⟩
      ⟨fun _ => []⟩).severity_label.rank ≤ Severity.high.rank := by
  have hl : (assign_severity ⟨"update widget", "salt/auth/pam.py", 3, 4⟩
      ⟨fun _ => []⟩).severity_label = .high :=
    congrArg SeverityAssignment.severity_label assign_severity_single_file_signal
  exact (assign_severity_weighted_vote
      ⟨"update widget", "salt/auth/pam.py", 3, 4⟩ ⟨fun _ => []⟩).2.1
    Severity.high (by rw [hl])

/-- A guarded `firstMatch` fails exactly when no element satisfies the
guard. -/
theorem firstMatch_guard_none {cond : α → Bool} {l : List α} :
    firstMatch (fun a => if cond a then some a else none) l = none
      ↔ l.any cond = false := by
  induction l with
  | nil => simp [firstMatch]
  | cons x xs ih =>
    simp only [firstMatch, List.any_cons]
    by_cases hx : cond x = true
    · simp [hx]
    · rw [Bool.not_eq_true] at hx
      simp [hx, ih]

/-- A successful guarded `firstMatch` means some element satisfies the
guard. -/
theorem firstMatch_guard_some {cond : α → Bool} {l : List α} {b : α}
    (h : firstMatch (fun a => if cond a then some a else none) l = some b) :
    l.any cond = true := by
  cases hl : l.any cond
  · have hn : firstMatch (fun a => if cond a then some a else none) l = none :=
      firstMatch_guard_none.mpr hl
    rw [hn] at h
    exact absurd h (by simp)
  · rfl

/-- C3: the file-path signal classifies every path by the ordered pattern
families, high before medium before low: a path containing one of the
high-severity (security/auth/crypto/transport/database) patterns yields
high with confidence 0.60; any remaining path containing a medium
(module/state/client/transport) pattern yields medium with 0.50; any
remaining path containing a low (test/doc/example/readme/changelog/
license) pattern yields low with 0.70; and any other path yields the
uncertain default medium with 0.30. -/
theorem classify_by_file_path_families (file_path : String) :
    ((classify_by_file_path file_path).1, (classify_by_file_path file_path).2.1)
      = (if high_severity_patterns.any
            (fun p => strContains (lowerStr file_path) p) then
          (Severity.high, (60/100 : ℚ))
        else if medium_severity_patterns.any
            (fun p => strContains (lowerStr file_path) p) then
          (Severity.medium, 50/100)
        else if low_severity_patterns.any
            (fun p => strContains (lowerStr file_path) p) then
          (Severity.low, 70/100)
        else (Severity.medium, 30/100)) := by
  unfold classify_by_file_path
  cases hh : firstMatch
      (fun p => if strContains (lowerStr file_path) p then some p else none)
      high_severity_patterns with
  | some p => simp [hh, firstMatch_guard_some hh]
  | none =>
    have h1 := firstMatch_guard_none.mp hh
    cases hm : firstMatch
        (fun p => if strContains (lowerStr file_path) p then some p else none)
        medium_severity_patterns with
    | some p => simp [hh, hm, h1, firstMatch_guard_some hm]
    | none =>
      have h2 := firstMatch_guard_none.mp hm
      cases hl : firstMatch
          (fun p => if strContains (lowerStr file_path) p then some p else none)
          low_severity_patterns with
      | some p => simp [hh, hm, hl, h1, h2, firstMatch_guard_some hl]
      | none =>
        have h3 := firstMatch_guard_none.mp hl
        simp [hh, hm, hl, h1, h2, h3]

/-- The file-path signal is appended unconditionally, so a record always
has at least one signal. -/
theorem signalsOf_length_pos (row : Row) (cfg : KeywordConfig) :
    1 ≤ (signalsOf row cfg).length := by
  unfold signalsOf
  rcases hk : classify_by_keywords row.message cfg with _ | ⟨s, c, r⟩ <;>
    rcases hs : classify_by_change_size row.insertions row.deletions
      with _ | ⟨s2, c2, r2⟩ <;> simp

/-- The message-keyword signal's confidence is one of the fixed values,
all within [0, 0.85]. -/
theorem classify_by_keywords_conf {message : String} {cfg : KeywordConfig}
    {s : Severity} {c : ℚ} {r : String}
    (h : classify_by_keywords message cfg = some (s, c, r)) :
    0 ≤ c ∧ c ≤ 85/100 := by
  unfold classify_by_keywords at h
  rcases hek : extract_keywords message cfg with _ | sev <;> rw [hek] at h
  · exact absurd h (by simp)
  · cases sev <;> simp only [Option.some.injEq, Prod.mk.injEq] at h <;>
      rw [← h.2.1] <;> norm_num

/-- The file-path signal's confidence is one of the fixed values, all
within [0, 0.85]. -/
theorem classify_by_file_path_conf (fp : String) :
    0 ≤ (classify_by_file_path fp).2.1 ∧
      (classify_by_file_path fp).2.1 ≤ 85/100 := by
  unfold classify_by_file_path
  rcases h1 : firstMatch
      (fun p => if strContains (lowerStr fp) p then some p else none)
      high_severity_patterns with _ | p
  · rcases h2 : firstMatch
        (fun p => if strContains (lowerStr fp) p then some p else none)
        medium_severity_patterns with _ | p
    · rcases h3 : firstMatch
          (fun p => if strContains (lowerStr fp) p then some p else none)
          low_severity_patterns with _ | p
      · simp [h1, h2, h3]
        norm_num
      · simp [h1, h2, h3]
        norm_num
    · simp [h1, h2]
      norm_num
  · simp [h1]
    norm_num

/-- The change-size signal's confidence is one of the fixed values, all
within [0, 0.85]. -/
theorem classify_by_change_size_conf {ins del : Nat} {s : Severity} {c : ℚ}
    {r : String} (h : classify_by_change_size ins del = some (s, c, r)) :
    0 ≤ c ∧ c ≤ 85/100 := by
  unfold classify_by_change_size at h
  simp only [] at h
  split_ifs at h <;> simp only [Option.some.injEq, Prod.mk.injEq] at h <;>
    rw [← h.2.1] <;> norm_num

/-- Every signal a record produces has confidence in [0, 0.85]. -/
theorem signalsOf_conf_bounds (row : Row) (cfg : KeywordConfig) :
    ∀ sig ∈ signalsOf row cfg, 0 ≤ sig.conf ∧ sig.conf ≤ 85/100 := by
  intro sig hsig
  unfold signalsOf at hsig
  simp only [List.append_assoc, List.mem_append, List.mem_singleton] at hsig
  rcases hsig with hkw | hfile | hsize
  · rcases hk : classify_by_keywords row.message cfg with _ | ⟨s, c, r⟩ <;>
      rw [hk] at hkw
    · simp at hkw
    · simp only [List.mem_singleton] at hkw
      rw [hkw]
      exact classify_by_keywords_conf hk
  · have hc := classify_by_file_path_conf row.file_path
    rcases hp : classify_by_file_path row.file_path with ⟨s, c, r⟩
    rw [hp] at hfile hc
    rw [hfile]
    exact hc
  · rcases hs : classify_by_change_size row.insertions row.deletions
      with _ | ⟨s2, c2, r2⟩ <;> rw [hs] at hsize
    · simp at hsize
    · simp only [List.mem_singleton] at hsize
      rw [hsize]
      exact classify_by_change_size_conf hs

/-- A per-severity score is a sum of nonnegative confidences. -/
theorem scoreSum_nonneg (signals : List Signal) (s : Severity)
    (h : ∀ sig ∈ signals, 0 ≤ sig.conf) : 0 ≤ scoreSum signals s := by
  unfold scoreSum
  apply List.sum_nonneg
  intro x hx
  simp only [List.mem_map] at hx
  obtain ⟨sig, hsig, rfl⟩ := hx
  exact h sig (List.mem_of_mem_filter hsig)

/-- A per-severity score is at most 0.85 times the number of signals. -/
theorem scoreSum_le_bound (signals : List Signal) (s : Severity)
    (h0 : ∀ sig ∈ signals, 0 ≤ sig.conf)
    (hB : ∀ sig ∈ signals, sig.conf ≤ 85/100) :
    scoreSum signals s ≤ (85/100 : ℚ) * signals.length := by
  unfold scoreSum
  have h1 : ((signals.filter (fun sig => sig.sev == s)).map
        (fun sig => sig.conf)).sum
      ≤ (signals.map (fun sig => sig.conf)).sum := by
    apply List.Sublist.sum_le_sum
    · exact List.Sublist.map _ (List.filter_sublist _)
    · intro x hx
      simp only [List.mem_map] at hx
      obtain ⟨sig, hsig, rfl⟩ := hx
      exact h0 sig hsig
  have h2 : (signals.map (fun sig => sig.conf)).sum
      ≤ (signals.map (fun sig => sig.conf)).length • (85/100 : ℚ) := by
    apply List.sum_le_card_nsmul
    intro x hx
    simp only [List.mem_map] at hx
    obtain ⟨sig, hsig, rfl⟩ := hx
    exact hB sig hsig
  calc ((signals.filter (fun sig => sig.sev == s)).map
        (fun sig => sig.conf)).sum
      ≤ (signals.map (fun sig => sig.conf)).sum := h1
    _ ≤ (signals.map (fun sig => sig.conf)).length • (85/100 : ℚ) := h2
    _ = (85/100 : ℚ) * signals.length := by
        rw [List.length_map, nsmul_eq_mul]
        ring

/-- C8: severity fusion always produces a result: the file-path signal is
appended unconditionally so at least one signal is present, the division
by the signal count is defined, and the resulting confidence lies in
[0, 1]. -/
theorem assign_severity_total_and_bounded (row : Row) (cfg : KeywordConfig) :
    1 ≤ (signalsOf row cfg).length ∧
    0 ≤ (assign_severity row cfg).severity_confidence ∧
    (assign_severity row cfg).severity_confidence ≤ 1 := by
  have hlen := signalsOf_length_pos row cfg
  have h0 : ∀ sig ∈ signalsOf row cfg, 0 ≤ sig.conf :=
    fun sig hs => (signalsOf_conf_bounds row cfg sig hs).1
  have hB : ∀ sig ∈ signalsOf row cfg, sig.conf ≤ 85/100 :=
    fun sig hs => (signalsOf_conf_bounds row cfg sig hs).2
  have hn : (0:ℚ) < (signalsOf row cfg).length := by
    have h1 : (1:ℚ) ≤ (signalsOf row cfg).length := by exact_mod_cast hlen
    linarith
  have hconf : (assign_severity row cfg).severity_confidence
      = scoreSum (signalsOf row cfg)
          ((assign_severity row cfg).severity_label)
        / (signalsOf row cfg).length := by
    have h1 : (assign_severity row cfg).severity_confidence
        = severity_scores (signalsOf row cfg)
            ((assign_severity row cfg).severity_label)
          / (signalsOf row cfg).length := rfl
    rw [h1, severity_scores_eq]
  refine ⟨hlen, ?_, ?_⟩
  · rw [hconf]
    exact div_nonneg (scoreSum_nonneg _ _ h0) (le_of_lt hn)
  · rw [hconf, div_le_one hn]
    calc scoreSum (signalsOf row cfg) ((assign_severity row cfg).severity_label)
        ≤ (85/100 : ℚ) * (signalsOf row cfg).length :=
          scoreSum_le_bound _ _ h0 hB
      _ ≤ 1 * (signalsOf row cfg).length := by
          apply mul_le_mul_of_nonneg_right _ (le_of_lt hn)
          norm_num
      _ = (signalsOf row cfg).length := one_mul _

end BugSeverity
